/-
Verification of the NTTB tournament pipeline (nttbscrape.py, tournament_adapter.py).

The Python sources are shallowly embedded below: each relevant function is
translated to an executable Lean definition operating on explicit data
(records for SQLite rows and scraped candidate dictionaries, lists for
result sets, strings compared the way SQLite's BINARY collation and Python
string operations compare them).  Theorems at the end of the file settle
the specification claims against these definitions.
-/
import Mathlib

set_option maxRecDepth 10000

/-! ### String helpers (Python `str` operations used by the sources) -/

/-- Python's `str.lower()` restricted to per-character lowering (exact for
the ASCII data handled by the scraper). -/
def lowerStr (s : String) : String := String.mk (s.data.map Char.toLower)

/-- ASCII whitespace, as stripped by Python's `str.strip()`. -/
def isSpaceChar (c : Char) : Bool :=
  c == ' ' || c == '\t' || c == '\n' || c == '\r' || c == '\x0b' || c == '\x0c'

/-- Python's `str.strip()`: remove leading and trailing whitespace. -/
def stripStr (s : String) : String :=
  String.mk (((s.data.dropWhile isSpaceChar).reverse.dropWhile isSpaceChar).reverse)

/-- `xs` occurs at the start of `ys` (character lists). -/
def leadsL : List Char → List Char → Bool
  | [], _ => true
  | _ :: _, [] => false
  | a :: as, b :: bs => a == b && leadsL as bs

/-- `needle` occurs somewhere inside `hay` (character lists); Python's
`needle in hay` on strings. -/
def infixL (needle : List Char) : List Char → Bool
  | [] => needle.isEmpty
  | c :: rest => leadsL needle (c :: rest) || infixL needle rest

/-- Python's `needle in hay` for strings. -/
def strContains (hay needle : String) : Bool := infixL needle.data hay.data

/-- Python's `hay.startswith(pre)`. -/
def strStarts (hay pre : String) : Bool := leadsL pre.data hay.data

/-- Python's `s[:n]` (first `n` characters). -/
def strTake (s : String) (n : Nat) : String := String.mk (s.data.take n)

/-- Lexicographic byte order on character lists: SQLite's BINARY collation
for the ASCII/UTF-8 text the pipeline stores. -/
def charsLt : List Char → List Char → Bool
  | [], [] => false
  | [], _ :: _ => true
  | _ :: _, [] => false
  | a :: as, b :: bs =>
    if a.toNat < b.toNat then true
    else if a.toNat == b.toNat then charsLt as bs
    else false

/-- SQLite TEXT `<` comparison. -/
def strLt (a b : String) : Bool := charsLt a.data b.data

/-! ### MD5 (Python `hashlib.md5(...).hexdigest()`)

An executable MD5 over byte lists, used by `_extract_tournament_details`
to compute the content fingerprint.  Words are `Nat` reduced mod 2^32. -/

def md5S : List Nat :=
  [7, 12, 17, 22, 7, 12, 17, 22, 7, 12, 17, 22, 7, 12, 17, 22,
   5, 9, 14, 20, 5, 9, 14, 20, 5, 9, 14, 20, 5, 9, 14, 20,
   4, 11, 16, 23, 4, 11, 16, 23, 4, 11, 16, 23, 4, 11, 16, 23,
   6, 10, 15, 21, 6, 10, 15, 21, 6, 10, 15, 21, 6, 10, 15, 21]

def md5K : List Nat :=
  [0xd76aa478, 0xe8c7b756, 0x242070db, 0xc1bdceee,
   0xf57c0faf, 0x4787c62a, 0xa8304613, 0xfd469501,
   0x698098d8, 0x8b44f7af, 0xffff5bb1, 0x895cd7be,
   0x6b901122, 0xfd987193, 0xa679438e, 0x49b40821,
   0xf61e2562, 0xc040b340, 0x265e5a51, 0xe9b6c7aa,
   0xd62f105d, 0x02441453, 0xd8a1e681, 0xe7d3fbc8,
   0x21e1cde6, 0xc33707d6, 0xf4d50d87, 0x455a14ed,
   0xa9e3e905, 0xfcefa3f8, 0x676f02d9, 0x8d2a4c8a,
   0xfffa3942, 0x8771f681, 0x6d9d6122, 0xfde5380c,
   0xa4beea44, 0x4bdecfa9, 0xf6bb4b60, 0xbebfbc70,
   0x289b7ec6, 0xeaa127fa, 0xd4ef3085, 0x04881d05,
   0xd9d4d039, 0xe6db99e5, 0x1fa27cf8, 0xc4ac5665,
   0xf4292244, 0x432aff97, 0xab9423a7, 0xfc93a039,
   0x655b59c3, 0x8f0ccc92, 0xffeff47d, 0x85845dd1,
   0x6fa87e4f, 0xfe2ce6e0, 0xa3014314, 0x4e0811a1,
   0xf7537e82, 0xbd3af235, 0x2ad7d2bb, 0xeb86d391]

def w32 : Nat := 4294967296

def rotl32 (x n : Nat) : Nat := ((x <<< n) ||| (x >>> (32 - n))) % w32

def not32 (x : Nat) : Nat := x ^^^ 0xffffffff

/-- One MD5 round: `st` is `(A, B, C, D)`, `M` the 16 message words,
`i` the round index. -/
def md5Round (M : List Nat) (st : Nat × Nat × Nat × Nat) (i : Nat) :
    Nat × Nat × Nat × Nat :=
  let a := st.1
  let b := st.2.1
  let c := st.2.2.1
  let d := st.2.2.2
  let fg : Nat × Nat :=
    if i < 16 then ((b &&& c) ||| (not32 b &&& d), i)
    else if i < 32 then ((d &&& b) ||| (not32 d &&& c), (5 * i + 1) % 16)
    else if i < 48 then (b ^^^ c ^^^ d, (3 * i + 5) % 16)
    else (c ^^^ (b ||| not32 d), (7 * i) % 16)
  let f := (fg.1 + a + md5K.getD i 0 + M.getD fg.2 0) % w32
  (d, (b + rotl32 f (md5S.getD i 0)) % w32, b, c)

/-- Process one 16-word block, starting from state `st`. -/
def md5Block (st : Nat × Nat × Nat × Nat) (M : List Nat) :
    Nat × Nat × Nat × Nat :=
  let r := (List.range 64).foldl (md5Round M) st
  ((st.1 + r.1) % w32, (st.2.1 + r.2.1) % w32,
   (st.2.2.1 + r.2.2.1) % w32, (st.2.2.2 + r.2.2.2) % w32)

/-- Process the word stream 16 words (one 512-bit block) at a time. -/
def md5Blocks (st : Nat × Nat × Nat × Nat) : List Nat → Nat × Nat × Nat × Nat
  | w0 :: w1 :: w2 :: w3 :: w4 :: w5 :: w6 :: w7 ::
    w8 :: w9 :: w10 :: w11 :: w12 :: w13 :: w14 :: w15 :: rest =>
      md5Blocks (md5Block st
        [w0, w1, w2, w3, w4, w5, w6, w7, w8, w9, w10, w11, w12, w13, w14, w15]) rest
  | _ => st

/-- Group bytes into little-endian 32-bit words. -/
def bytesToWords : List Nat → List Nat
  | b0 :: b1 :: b2 :: b3 :: rest =>
      (b0 + 256 * b1 + 65536 * b2 + 16777216 * b3) :: bytesToWords rest
  | _ => []

/-- MD5 padding: `0x80`, zeros to 56 mod 64, 8-byte little-endian bit length. -/
def md5Pad (msg : List Nat) : List Nat :=
  let L := msg.length
  let zeros := (119 - L % 64) % 64
  msg ++ [0x80] ++ List.replicate zeros 0 ++
    (List.range 8).map (fun i => ((8 * L) >>> (8 * i)) % 256)

/-- The four state words of the MD5 digest of a byte list. -/
def md5Digest (msg : List Nat) : Nat × Nat × Nat × Nat :=
  md5Blocks (0x67452301, 0xefcdab89, 0x98badcfe, 0x10325476)
    (bytesToWords (md5Pad msg))

def hexChar (n : Nat) : Char :=
  if n < 10 then Char.ofNat (48 + n) else Char.ofNat (87 + n)

def byteHex (b : Nat) : List Char := [hexChar (b / 16), hexChar (b % 16)]

/-- Little-endian bytes of one 32-bit word. -/
def wordBytes (w : Nat) : List Nat :=
  [w % 256, (w >>> 8) % 256, (w >>> 16) % 256, (w >>> 24) % 256]

/-- `hashlib.md5(s.encode()).hexdigest()` (exact for ASCII input, whose
UTF-8 encoding is its code points). -/
def md5Hex (s : String) : String :=
  let d := md5Digest (s.data.map Char.toNat)
  String.mk ((wordBytes d.1 ++ wordBytes d.2.1 ++ wordBytes d.2.2.1 ++
    wordBytes d.2.2.2).flatMap byteHex)

/-! ### Parsed-markup model

`_parse_tournaments` and `_extract_tournament_details` interrogate a
BeautifulSoup element tree through a fixed set of queries.  A `PageElement`
records the answers those queries give for one `li.list__item` element,
which is exactly the interface the extraction code consumes. -/

/-- An `a[href]` hyperlink inside a candidate element. -/
structure Link where
  href : String
  text : String
deriving DecidableEq, Repr

/-- A `time[datetime]` element: visible text and `datetime` attribute. -/
structure TimeEl where
  text : String
  dt : String
deriving DecidableEq, Repr

/-- A `small.media__subheading` element: its `span.nav-link__value` text and
its `time[datetime]` children. -/
structure Subheading where
  navValue : Option String
  times : List TimeEl
deriving DecidableEq, Repr

/-- The `h4.media__title` element: `span.nav-link__value` text and the first
`a[href]` child's `href`. -/
structure TitleEl where
  nameSpan : Option String
  linkHref : Option String
deriving DecidableEq, Repr

/-- One `li.list__item` element as seen through the queries the parser makes. -/
structure PageElement where
  title : Option TitleEl
  hasCheckbox : Bool
  hasAdDiv : Bool
  text : String
  subheads : List Subheading
  tagTexts : List String
  links : List Link
deriving DecidableEq, Repr

/-- The tournament dictionary built by `_extract_tournament_details`. -/
structure Candidate where
  id : String
  tournament_id : Option String
  name : Option String
  location : Option String
  date : Option String
  start_date : Option String
  end_date : Option String
  categories : Option String
  registration_available : Bool
  registration_url : Option String
  registration_deadline : Option String
  registration_status : Option String
  tournament_url : Option String
  source : String
  extraction_method : String
  hash : String
deriving DecidableEq, Repr

def baseUrl : String := "https://nttb.toernooi.nl"

def regKeywords : List String := ["inschrijv", "register", "aanmeld", "sign up"]

def closedKeywords : List String := ["gesloten", "closed", "vol", "full"]

/-- The registration URL recorded for a matching link: site-relative links
are resolved against the base URL, absolute `http` links kept, anything
else (including a falsy `href`) records nothing. -/
def regUrl (l : Link) : Option String :=
  if l.href == "" then none
  else if strStarts l.href "/" then some (baseUrl ++ l.href)
  else if strStarts l.href "http" then some l.href
  else none

/-- `_extract_registration_info`: walk the `a[href]` links; the first whose
lowered text contains a registration keyword decides availability, URL and
status (closed keywords in the same text override availability).  Returns
`(registration_available, registration_url, registration_status)`. -/
def extractRegistrationInfo : List Link → Bool × Option String × Option String
  | [] => (false, none, none)
  | l :: rest =>
    if regKeywords.any (fun k => strContains (lowerStr l.text) k) then
      if closedKeywords.any (fun k => strContains (lowerStr l.text) k) then
        (false, regUrl l, some "closed")
      else (true, regUrl l, none)
    else extractRegistrationInfo rest

/-- Characters after the first `|`. -/
def dropToPipe : List Char → List Char
  | [] => []
  | c :: r => if c == '|' then r else dropToPipe r

/-- Characters up to the next `|`. -/
def takeToPipe : List Char → List Char
  | [] => []
  | c :: r => if c == '|' then [] else c :: takeToPipe r

/-- Python `text.split(sep)[1]` for the single-character separator `|`. -/
def pipeSecondField (s : String) : String :=
  String.mk (takeToPipe (dropToPipe s.data))

/-- Characters after the first occurrence of `sub`. -/
def afterSub (sub : List Char) : List Char → List Char
  | [] => []
  | c :: r => if leadsL sub (c :: r) then (c :: r).drop sub.length else afterSub sub r

/-- Characters up to the first `&`. -/
def takeToAmp : List Char → List Char
  | [] => []
  | c :: r => if c == '&' then [] else c :: takeToAmp r

/-- `href.split('id=')[1].split('&')[0]` (for the usual case of a single
`id=` occurrence in the URL). -/
def idFromHref (href : String) : String :=
  String.mk (takeToAmp (afterSub "id=".data href.data))

/-- `json.dumps` on a list of (escape-free) strings. -/
def jsonDumpsList (xs : List String) : String :=
  "[" ++ String.intercalate ", " (xs.map (fun s => "\"" ++ s ++ "\"")) ++ "]"

/-- The content fingerprint: MD5 of the concatenation of the raw `name`,
`start_date` and `location` values, absent fields contributing `""`. -/
def tournamentHash (name start_date location : Option String) : String :=
  md5Hex ((name.getD "") ++ (start_date.getD "") ++ (location.getD ""))

/-- `_extract_tournament_details`: build the candidate dictionary from one
qualifying element.  `index` is the position in the filtered element list
and `tnow` the scrape wall-clock second (both only feed the synthetic id). -/
def extractTournamentDetails (e : PageElement) (index : Nat) (source : String)
    (tnow : Nat) : Candidate :=
  let name : Option String :=
    match e.title with
    | none => none
    | some t => t.nameSpan
  let turl : Option String :=
    match e.title with
    | none => none
    | some t =>
      match t.linkHref with
      | none => none
      | some href => some (if strStarts href "/" then baseUrl ++ href else href)
  let tid : Option String :=
    match e.title with
    | none => none
    | some t =>
      match t.linkHref with
      | none => none
      | some href =>
        if strContains href "id=" then some (idFromHref href) else none
  let location : Option String :=
    match e.subheads with
    | [] => none
    | sh :: _ =>
      match sh.navValue with
      | none => none
      | some ltext =>
        if strContains ltext "|" then some (stripStr (pipeSecondField ltext))
        else some ltext
  let dates : Option String × Option String × Option String :=
    match e.subheads with
    | _ :: sh2 :: _ =>
      match sh2.times with
      | [] => (none, none, none)
      | [t0] => (some t0.text, some t0.dt, none)
      | t0 :: t1 :: _ =>
        (some (t0.text ++ " t/m " ++ t1.text), some t0.dt, some t1.dt)
    | _ => (none, none, none)
  let cats := e.tagTexts.filter (fun t => t != "" && t.length > 1)
  let categories : Option String :=
    if cats.isEmpty then none else some (jsonDumpsList cats)
  let reg := extractRegistrationInfo e.links
  { id := "tournament_" ++ source ++ "_" ++ toString index ++ "_" ++
      toString tnow,
    tournament_id := tid, name := name, location := location,
    date := dates.1, start_date := dates.2.1, end_date := dates.2.2,
    categories := categories, registration_available := reg.1,
    registration_url := reg.2.1, registration_deadline := none,
    registration_status := reg.2.2, tournament_url := turl,
    source := source, extraction_method := "nttb_scraper_v2",
    hash := tournamentHash name dates.2.1 location }

/-- The candidate filter of `_parse_tournaments`: a `li.list__item` element
qualifies only with a title, no checkbox input, no ad container, and no
"cookie" in the first 100 characters of its lowered visible text. -/
def tournamentElements (items : List PageElement) : List PageElement :=
  items.filter (fun e =>
    e.title.isSome && !e.hasCheckbox && !e.hasAdDiv &&
    !(strContains (strTake (lowerStr e.text) 100) "cookie"))

/-- `_parse_tournaments`: filter the elements, extract details, keep the
candidates that obtained a (truthy) name. -/
def parseTournaments (items : List PageElement) (source : String) (tnow : Nat) :
    List Candidate :=
  ((tournamentElements items).enum).filterMap (fun p =>
    let td := extractTournamentDetails p.2 p.1 source tnow
    if td.name.getD "" != "" then some td else none)

/-! ### Deduplicator (`_remove_duplicate_tournaments`) -/

/-- The dedup key: stripped-and-lowered name and location, stripped
start date. -/
def dedupKey (t : Candidate) : String × String × String :=
  (lowerStr (stripStr (t.name.getD "")), stripStr (t.start_date.getD ""),
   lowerStr (stripStr (t.location.getD "")))

def removeDuplicatesGo : List Candidate → List (String × String × String) →
    List Candidate
  | [], _ => []
  | t :: rest, seen =>
    if t.name.getD "" == "" then removeDuplicatesGo rest seen
    else if seen.contains (dedupKey t) then removeDuplicatesGo rest seen
    else t :: removeDuplicatesGo rest (dedupKey t :: seen)

/-- `_remove_duplicate_tournaments`: keep the first candidate per dedup key,
skipping candidates without a (truthy) name. -/
def removeDuplicateTournaments (ts : List Candidate) : List Candidate :=
  removeDuplicatesGo ts []

/-! ### Persistence (`tournaments` table, `_save_tournaments_to_db`,
`cleanup_old_tournaments`) -/

/-- One row of the `tournaments` table.  `scraped_at` holds the SQLite
timestamp text; nullable columns are `Option`s. -/
structure Row where
  id : String
  tournament_id : Option String
  name : Option String
  location : Option String
  date : Option String
  start_date : Option String
  end_date : Option String
  categories : Option String
  registration_available : Bool
  registration_url : Option String
  registration_deadline : Option String
  registration_status : Option String
  tournament_url : Option String
  participant_count : Option Int
  entry_fee : Option String
  contact_info : Option String
  source : Option String
  extraction_method : Option String
  raw_data : Option String
  scraped_at : String
  hash : Option String
  is_active : Bool
deriving DecidableEq, Repr

/-- `WHERE hash = ? AND is_active = 1` for one row. -/
def rowMatches (r : Row) (h : String) : Bool := r.is_active && r.hash == some h

/-- The column assignments of the UPDATE branch (plus
`scraped_at = CURRENT_TIMESTAMP`, passed in as `now`). -/
def setFields (t : Candidate) (now : String) (r : Row) : Row :=
  { r with
    name := t.name, location := t.location, date := t.date,
    start_date := t.start_date, end_date := t.end_date,
    categories := t.categories,
    registration_available := t.registration_available,
    registration_url := t.registration_url,
    registration_deadline := t.registration_deadline,
    registration_status := t.registration_status,
    tournament_url := t.tournament_url, source := some t.source,
    extraction_method := some t.extraction_method, scraped_at := now }

/-- The row created by the INSERT branch (columns not named in the INSERT
take their defaults: `scraped_at = CURRENT_TIMESTAMP`, `is_active = 1`,
the rest NULL). -/
def newRow (t : Candidate) (now : String) : Row :=
  { id := t.id, tournament_id := t.tournament_id, name := t.name,
    location := t.location, date := t.date, start_date := t.start_date,
    end_date := t.end_date, categories := t.categories,
    registration_available := t.registration_available,
    registration_url := t.registration_url,
    registration_deadline := t.registration_deadline,
    registration_status := t.registration_status,
    tournament_url := t.tournament_url, participant_count := none,
    entry_fee := none, contact_info := none, source := some t.source,
    extraction_method := some t.extraction_method, raw_data := none,
    scraped_at := now, hash := some t.hash, is_active := true }

/-- Apply the UPDATE to one row: only active rows with the matching hash
are rewritten. -/
def updRow (t : Candidate) (now : String) (r : Row) : Row :=
  if rowMatches r t.hash then setFields t now r else r

/-- `SELECT id FROM tournaments WHERE hash = ? AND is_active = 1` found a row. -/
def existsActive (db : List Row) (h : String) : Bool :=
  db.any (fun r => rowMatches r h)

/-- One iteration of the save loop: UPDATE when an active row with the
candidate's hash exists, INSERT otherwise. -/
def saveStep (now : String) (db : List Row) (t : Candidate) : List Row :=
  if existsActive db t.hash then db.map (updRow t now) else db ++ [newRow t now]

/-- `_save_tournaments_to_db`: fold the save loop over the candidate list. -/
def saveTournamentsToDb (db : List Row) (ts : List Candidate) (now : String) :
    List Row :=
  ts.foldl (saveStep now) db

/-- The WHERE clause of `cleanup_old_tournaments`.  `cutoff` is
`(now - days_old days).isoformat()` and `oneWeekAgo` is
`(now - 7 days).isoformat()`; SQLite compares the TEXT columns to them in
BINARY (byte) order. -/
def cleanupCond (r : Row) (cutoff oneWeekAgo : String) : Bool :=
  strLt r.scraped_at cutoff ||
  (match r.end_date with
   | some e => strLt e oneWeekAgo
   | none => false) ||
  (match r.start_date, r.end_date with
   | some s, none => strLt s oneWeekAgo
   | _, _ => false)

/-- `cleanup_old_tournaments`: `UPDATE tournaments SET is_active = 0 WHERE …`. -/
def cleanupOldTournaments (db : List Row) (cutoff oneWeekAgo : String) :
    List Row :=
  db.map (fun r =>
    if cleanupCond r cutoff oneWeekAgo then { r with is_active := false } else r)


/-! ### Query Façade (`tournament_adapter.py`) -/

/-- The adapter's `Tournament` dataclass. -/
structure TournamentRec where
  id : String
  name : String
  location : String
  date : String
  start_date : String
  end_date : Option String
  categories : List String
  registration_available : Bool
  registration_url : Option String
  registration_deadline : Option String
  tournament_url : Option String
  source : String
deriving DecidableEq, Repr

/-- Python `x or default` on a nullable text column: NULL and the empty
string are both replaced. -/
def pyOr (o : Option String) (default : String) : String :=
  match o with
  | none => default
  | some s => if s == "" then default else s

/-- `json.loads` on the scraper's `json.dumps` image: collect the quoted
segments (escape sequences do not occur in the stored data). -/
def collectQuotedGo : List Char → Bool → List Char → List String
  | [], _, _ => []
  | c :: r, false, acc =>
    if c == '"' then collectQuotedGo r true [] else collectQuotedGo r false acc
  | c :: r, true, acc =>
    if c == '"' then String.mk acc.reverse :: collectQuotedGo r false []
    else collectQuotedGo r true (c :: acc)

def jsonLoadsList (s : String) : List String := collectQuotedGo s.data false []

/-- Build the dataclass from one row, substituting the adapter's defaults
for falsy columns. -/
def rowToTournament (r : Row) : TournamentRec :=
  { id := r.id, name := r.name.getD "",
    location := pyOr r.location "Unknown", date := pyOr r.date "TBA",
    start_date := pyOr r.start_date "", end_date := r.end_date,
    categories :=
      match r.categories with
      | none => []
      | some c => if c == "" then [] else jsonLoadsList c,
    registration_available := r.registration_available,
    registration_url := r.registration_url,
    registration_deadline := r.registration_deadline,
    tournament_url := r.tournament_url, source := pyOr r.source "unknown" }

/-- `ORDER BY start_date ASC` under SQLite semantics: NULL sorts before any
text, text in BINARY order. -/
def rowLeB (a b : Row) : Bool :=
  match a.start_date, b.start_date with
  | none, _ => true
  | some _, none => false
  | some x, some y => !(strLt y x)

/-- `SELECT … FROM tournaments WHERE is_active = 1 ORDER BY start_date ASC`. -/
def activeRowsSorted (db : List Row) : List Row :=
  List.insertionSort (fun a b => rowLeB a b = true) (db.filter (fun r => r.is_active))

/-- The two `except` arms of `_get_all_tournaments_sync`. -/
inductive DbError where
  | operational
  | other
deriving DecidableEq, Repr

/-- `_get_all_tournaments_sync`: a store fault on read yields `[]`;
otherwise the active rows, ordered, as `Tournament` dataclasses. -/
def getAllTournamentsSync (res : Except DbError (List Row)) :
    List TournamentRec :=
  match res with
  | .error _ => []
  | .ok db => (activeRowsSorted db).map rowToTournament

/-! #### Date handling for `get_upcoming_tournaments`

`datetime.fromisoformat` is modeled on calendar dates: a
`YYYY-MM-DD`-prefixed string maps to its proleptic-Gregorian day ordinal
(the time-of-day suffix, already `Z`-normalized by the caller, is not
inspected further); anything malformed fails.  `now` and `days` are
likewise measured in days, so `cutoff = now + timedelta(days=days)` is
`now + days`. -/

def isLeap (y : Nat) : Bool := y % 4 == 0 && (y % 100 != 0 || y % 400 == 0)

def monthLen (y m : Nat) : Nat :=
  if m == 2 then (if isLeap y then 29 else 28)
  else if m == 4 || m == 6 || m == 9 || m == 11 then 30
  else 31

def daysBeforeMonth (y m : Nat) : Nat :=
  (List.range (m - 1)).foldl (fun acc i => acc + monthLen y (i + 1)) 0

/-- Day ordinal of a Gregorian date (day 1 = 0001-01-01). -/
def dayOrdinal (y m d : Nat) : Nat :=
  365 * (y - 1) + (y - 1) / 4 - (y - 1) / 100 + (y - 1) / 400 +
    daysBeforeMonth y m + d

def digitVal (c : Char) : Nat := c.toNat - 48

/-- Parse an ISO date prefix `YYYY-MM-DD` (optionally followed by a time
part introduced by `T` or a space) to its day ordinal; `none` on anything
`datetime.fromisoformat` would reject. -/
def parseIsoDate (s : String) : Option Int :=
  match s.data with
  | y1 :: y2 :: y3 :: y4 :: s1 :: m1 :: m2 :: s2 :: d1 :: d2 :: rest =>
    if y1.isDigit && y2.isDigit && y3.isDigit && y4.isDigit && s1 == '-' &&
        m1.isDigit && m2.isDigit && s2 == '-' && d1.isDigit && d2.isDigit &&
        (rest.isEmpty || rest.headD ' ' == 'T' || rest.headD ' ' == ' ') then
      let y := 1000 * digitVal y1 + 100 * digitVal y2 + 10 * digitVal y3 +
        digitVal y4
      let m := 10 * digitVal m1 + digitVal m2
      let d := 10 * digitVal d1 + digitVal d2
      if 1 ≤ m && m ≤ 12 && 1 ≤ d && d ≤ monthLen y m then
        some (dayOrdinal y m d : Int)
      else none
    else none
  | _ => none

/-- The loop body of `get_upcoming_tournaments`: keep a tournament when its
`start_date` is truthy and either parses into `[now, now + days]` or fails
to parse. -/
def upcomingPred (now days : Int) (t : TournamentRec) : Bool :=
  if t.start_date == "" then false
  else
    match parseIsoDate t.start_date with
    | some s => if now ≤ s ∧ s ≤ now + days then true else false
    | none => true

/-- `get_upcoming_tournaments`. -/
def getUpcomingTournaments (res : Except DbError (List Row)) (now days : Int) :
    List TournamentRec :=
  (getAllTournamentsSync res).filter (upcomingPred now days)

/-- `search_tournaments`: case-insensitive containment in name or location. -/
def searchTournaments (res : Except DbError (List Row)) (query : String) :
    List TournamentRec :=
  let ql := lowerStr query
  (getAllTournamentsSync res).filter (fun t =>
    strContains (lowerStr t.name) ql || strContains (lowerStr t.location) ql)

/-- `get_tournaments_with_registration`. -/
def tournamentsWithRegistration (res : Except DbError (List Row)) :
    List TournamentRec :=
  (getAllTournamentsSync res).filter (fun t => t.registration_available)

structure TournamentStats where
  total : Nat
  upcoming_30_days : Nat
  with_registration : Nat
deriving DecidableEq, Repr

/-- `get_tournament_stats` (each constituent read sees the same store
outcome `res`). -/
def getTournamentStats (res : Except DbError (List Row)) (now : Int) :
    TournamentStats :=
  { total := (getAllTournamentsSync res).length,
    upcoming_30_days := (getUpcomingTournaments res now 30).length,
    with_registration := (tournamentsWithRegistration res).length }

/-! ### Fixtures used by the concrete parts of the claims -/

/-- A row with all defaultable columns at their SQL defaults. -/
def row0 : Row :=
  { id := "", tournament_id := none, name := none, location := none,
    date := none, start_date := none, end_date := none, categories := none,
    registration_available := false, registration_url := none,
    registration_deadline := none, registration_status := none,
    tournament_url := none, participant_count := none, entry_fee := none,
    contact_info := none, source := none, extraction_method := none,
    raw_data := none, scraped_at := "", hash := none, is_active := false }

/-- Reference instant for the query scenario: 2026-10-12. -/
def exNow : Int := (dayOrdinal 2026 10 12 : Int)

/-- Active row starting today + 5 days. -/
def exRowPlus5 : Row :=
  { row0 with
    id := "r5", name := some "Herfst Open", start_date := some "2026-10-17",
    scraped_at := "2026-10-12 11:00:00", is_active := true }

/-- Active row starting today + 40 days. -/
def exRowPlus40 : Row :=
  { row0 with
    id := "r40", name := some "Winter Open", start_date := some "2026-11-21",
    scraped_at := "2026-10-12 11:00:00", is_active := true }

/-- Active row with no start date at all. -/
def exRowNoDate : Row :=
  { row0 with
    id := "rn", name := some "Datumloos Open", start_date := none,
    scraped_at := "2026-10-12 11:00:00", is_active := true }

def exUpcomingDb : List Row := [exRowPlus5, exRowPlus40, exRowNoDate]

/-- Retention scenario: the sweep runs at 2026-10-12 12:00, so the
14-day cutoff and the 7-day bound are the following `isoformat()` texts. -/
def exCutoff : String := "2026-09-28T12:00:00"

def exWeekAgo : String := "2026-10-05T12:00:00"

/-- Freshly scraped, `end_date` 10 days in the past. -/
def exRowEnd10 : Row :=
  { row0 with
    id := "e10", scraped_at := "2026-10-12 11:00:00",
    end_date := some "2026-10-02", is_active := true }

/-- Freshly scraped, `end_date` 3 days in the past. -/
def exRowEnd3 : Row :=
  { row0 with
    id := "e3", scraped_at := "2026-10-12 11:00:00",
    end_date := some "2026-10-09", is_active := true }

/-- Freshly scraped, no `end_date`, `start_date` 10 days in the past. -/
def exRowStart10 : Row :=
  { row0 with
    id := "s10", scraped_at := "2026-10-12 11:00:00",
    start_date := some "2026-10-02", is_active := true }

/-- Freshly scraped, no `end_date`, `start_date` 3 days in the past. -/
def exRowStart3 : Row :=
  { row0 with
    id := "s3", scraped_at := "2026-10-12 11:00:00",
    start_date := some "2026-10-09", is_active := true }

def exRetentionDb : List Row := [exRowEnd10, exRowEnd3, exRowStart10, exRowStart3]

/-- Element whose title span reads "Foo Cup" (location Delft, one date). -/
def exElemA : PageElement :=
  { title := some { nameSpan := some "Foo Cup", linkHref := none },
    hasCheckbox := false, hasAdDiv := false, text := "Foo Cup",
    subheads := [{ navValue := some "NTTB | Delft", times := [] },
                 { navValue := none,
                   times := [{ text := "1 januari 2026", dt := "2026-01-01" }] }],
    tagTexts := [], links := [] }

/-- Same element with the title case-flipped to "foo cup". -/
def exElemB : PageElement :=
  { title := some { nameSpan := some "foo cup", linkHref := none },
    hasCheckbox := false, hasAdDiv := false, text := "foo cup",
    subheads := [{ navValue := some "NTTB | Delft", times := [] },
                 { navValue := none,
                   times := [{ text := "1 januari 2026", dt := "2026-01-01" }] }],
    tagTexts := [], links := [] }

/-! ### Helper lemmas -/

theorem leadsL_map (f : Char → Char) :
    ∀ n h : List Char, leadsL n h = true → leadsL (n.map f) (h.map f) = true := by
  intro n
  induction n with
  | nil => intro h _; simp [leadsL]
  | cons a as ih =>
    intro h hlead
    cases h with
    | nil => simp [leadsL] at hlead
    | cons b bs =>
      simp only [leadsL, Bool.and_eq_true, beq_iff_eq] at hlead
      simp only [List.map_cons, leadsL, Bool.and_eq_true, beq_iff_eq]
      exact ⟨by rw [hlead.1], ih bs hlead.2⟩

theorem infixL_map (f : Char → Char) :
    ∀ h n : List Char, infixL n h = true → infixL (n.map f) (h.map f) = true := by
  intro h
  induction h with
  | nil =>
    intro n hn
    simp only [infixL, List.isEmpty_iff] at hn
    simp [hn, infixL]
  | cons c rest ih =>
    intro n hn
    simp only [infixL, Bool.or_eq_true] at hn
    rcases hn with hn | hn
    · have := leadsL_map f n (c :: rest) hn
      simp only [List.map_cons] at this ⊢
      simp only [infixL, Bool.or_eq_true]
      exact Or.inl this
    · simp only [List.map_cons, infixL, Bool.or_eq_true]
      exact Or.inr (ih n hn)

/-- Tournament rows that are active and stored reach the query façade. -/
theorem mem_getAll_of_active (db : List Row) (r : Row) (hr : r ∈ db)
    (ha : r.is_active = true) :
    rowToTournament r ∈ getAllTournamentsSync (Except.ok db) := by
  unfold getAllTournamentsSync activeRowsSorted
  apply List.mem_map_of_mem
  have hperm := List.perm_insertionSort
    (fun a b => rowLeB a b = true) (db.filter (fun r => r.is_active))
  rw [hperm.mem_iff]
  exact List.mem_filter.mpr ⟨hr, ha⟩

theorem upcomingPred_iff (now days : Int) (t : TournamentRec) :
    upcomingPred now days t = true ↔
      t.start_date ≠ "" ∧
        (parseIsoDate t.start_date = none ∨
          ∃ s, parseIsoDate t.start_date = some s ∧ now ≤ s ∧ s ≤ now + days) := by
  unfold upcomingPred
  constructor
  · intro h
    split at h
    · exact absurd h (by simp)
    · rename_i hne
      refine ⟨by simpa using hne, ?_⟩
      split at h
      · rename_i s hs
        have hw : now ≤ s ∧ s ≤ now + days := by
          by_contra hw
          rw [if_neg hw] at h
          exact absurd h (by simp)
        exact Or.inr ⟨s, hs, hw.1, hw.2⟩
      · rename_i hs
        exact Or.inl hs
  · rintro ⟨h0, hor⟩
    rw [if_neg (by simpa using h0)]
    rcases hor with hnone | ⟨s, hs, h1, h2⟩
    · rw [hnone]
    · rw [hs]
      show (if now ≤ s ∧ s ≤ now + days then true else false) = true
      rw [if_pos ⟨h1, h2⟩]

/-- Per-index characterization of the retention sweep: each row is
deactivated exactly when the WHERE clause selects it, and is otherwise
unchanged. -/
theorem cleanup_getD (db : List Row) (cutoff week : String) :
    ∀ i, i < db.length →
      (cleanupOldTournaments db cutoff week).getD i row0 =
        (if cleanupCond (db.getD i row0) cutoff week then
          { db.getD i row0 with is_active := false }
        else db.getD i row0) := by
  induction db with
  | nil => intro i hi; simp at hi
  | cons r rest ih =>
    intro i hi
    cases i with
    | zero => simp [cleanupOldTournaments]
    | succ n =>
      have hn : n < rest.length := by simpa using hi
      simpa [cleanupOldTournaments] using ih n hn

/-- The first hyperlink whose lowered text contains a registration keyword. -/
def firstRegLink (links : List Link) : Option Link :=
  links.find? (fun l => regKeywords.any (fun k => strContains (lowerStr l.text) k))

theorem firstRegLink_cons (l0 : Link) (rest : List Link) :
    firstRegLink (l0 :: rest) =
      (if regKeywords.any (fun k => strContains (lowerStr l0.text) k) then some l0
       else firstRegLink rest) := by
  unfold firstRegLink
  cases hp : regKeywords.any (fun k => strContains (lowerStr l0.text) k) <;>
    simp [List.find?_cons, hp]

/-- Raw-text cookie occurrence survives lowering: if the first 100
characters of `s` contain `"cookie"`, so do the first 100 characters of
`lowerStr s`. -/
theorem cookie_lower_of_raw (s : String)
    (h : strContains (strTake s 100) "cookie" = true) :
    strContains (strTake (lowerStr s) 100) "cookie" = true := by
  have h0 : infixL "cookie".data (s.data.take 100) = true := h
  have h2 := infixL_map Char.toLower _ _ h0
  have e1 : "cookie".data.map Char.toLower = "cookie".data := by decide
  have e2 : (s.data.take 100).map Char.toLower =
      (s.data.map Char.toLower).take 100 := by
    rw [List.map_take]
  rw [e1, e2] at h2
  exact h2

/-! ### Claim theorems -/

/-- C1, counterexample: in the store holding active records that start
today + 5 days, today + 40 days and without any start date,
`get_upcoming_tournaments(30)` returns only the today + 5 record — the
undated active record is dropped, contrary to the claim that it is
included. -/
theorem upcoming_drops_undated_cex :
    exRowNoDate ∈ exUpcomingDb ∧ exRowNoDate.is_active = true ∧
    exRowNoDate.start_date = none ∧
    getUpcomingTournaments (Except.ok exUpcomingDb) exNow 30 =
      [rowToTournament exRowPlus5] ∧
    rowToTournament exRowNoDate ∉
      getUpcomingTournaments (Except.ok exUpcomingDb) exNow 30 := by
  refine ⟨by decide, by decide, by decide, by decide, by decide⟩

/-- C1, amended: `get_upcoming_tournaments(days)` returns exactly the
active records whose non-empty `start_date` parses into
`[now, now + days]` together with those whose `start_date` is non-empty
but unparsable; records whose `start_date` is absent (surfaced as the
empty string) are excluded.  In the scenario with records starting
today + 5, today + 40 and undated, `listUpcoming(30)` returns only the
first. -/
theorem upcoming_window_membership (res : Except DbError (List Row))
    (now days : Int) (t : TournamentRec) :
    (t ∈ getUpcomingTournaments res now days ↔
      t ∈ getAllTournamentsSync res ∧ t.start_date ≠ "" ∧
        (parseIsoDate t.start_date = none ∨
          ∃ s, parseIsoDate t.start_date = some s ∧ now ≤ s ∧ s ≤ now + days)) ∧
    getUpcomingTournaments (Except.ok exUpcomingDb) exNow 30 =
      [rowToTournament exRowPlus5] := by
  constructor
  · unfold getUpcomingTournaments
    rw [List.mem_filter]
    exact and_congr Iff.rfl (upcomingPred_iff now days t)
  · decide

/-- C2, counterexample: two extracted candidates whose names differ only
in letter case (locations and start dates identical) receive different
content fingerprints — the hash is computed over the raw, unnormalized
concatenation. -/
theorem fingerprint_case_cex :
    lowerStr ((extractTournamentDetails exElemA 0 "upcoming" 0).name.getD "") =
      lowerStr ((extractTournamentDetails exElemB 0 "upcoming" 0).name.getD "") ∧
    (extractTournamentDetails exElemA 0 "upcoming" 0).location =
      (extractTournamentDetails exElemB 0 "upcoming" 0).location ∧
    (extractTournamentDetails exElemA 0 "upcoming" 0).start_date =
      (extractTournamentDetails exElemB 0 "upcoming" 0).start_date ∧
    (extractTournamentDetails exElemA 0 "upcoming" 0).hash ≠
      (extractTournamentDetails exElemB 0 "upcoming" 0).hash := by
  refine ⟨by decide, by decide, by decide, by decide⟩

/-- C2, amended: the fingerprint is a function of the raw concatenation of
`name`, `start_date` and `location` (absent fields contributing `""`):
candidates with equal concatenations — in particular with identical raw
fields — receive the same fingerprint.  No case or whitespace
normalization is applied. -/
theorem fingerprint_concat_eq (n1 sd1 l1 n2 sd2 l2 : Option String)
    (h : n1.getD "" ++ sd1.getD "" ++ l1.getD "" =
      n2.getD "" ++ sd2.getD "" ++ l2.getD "") :
    tournamentHash n1 sd1 l1 = tournamentHash n2 sd2 l2 := by
  unfold tournamentHash
  rw [h]

/-- Witness for `fingerprint_concat_eq` at a concrete input. -/
theorem fingerprint_concat_eq_witness :
    ((some "Foo Cup" : Option String).getD "" ++
        (some "2026-01-01" : Option String).getD "" ++
        (some "Delft" : Option String).getD "" =
      (some "Foo Cup2026" : Option String).getD "" ++
        (some "-01-01" : Option String).getD "" ++
        (some "Delft" : Option String).getD "") ∧
    tournamentHash (some "Foo Cup") (some "2026-01-01") (some "Delft") =
      tournamentHash (some "Foo Cup2026") (some "-01-01") (some "Delft") :=
  ⟨by decide,
   fingerprint_concat_eq (some "Foo Cup") (some "2026-01-01") (some "Delft")
     (some "Foo Cup2026") (some "-01-01") (some "Delft") (by decide)⟩

/-- C5: the retention sweep deactivates exactly the rows selected by the
WHERE clause (stale `scraped_at`, or `end_date` more than a week old, or —
with no `end_date` — `start_date` more than a week old) and leaves every
other row unchanged; concretely, with the sweep run at 2026-10-12 12:00,
an `end_date` 10 days past is deactivated, 3 days past is not, a
`start_date` 10 days past (no `end_date`) is deactivated, 3 days past is
not. -/
theorem cleanup_retention_spec (db : List Row) (cutoff week : String)
    (i : Nat) (hi : i < db.length) :
    ((cleanupOldTournaments db cutoff week).getD i row0 =
      (if cleanupCond (db.getD i row0) cutoff week then
        { db.getD i row0 with is_active := false }
      else db.getD i row0)) ∧
    (cleanupOldTournaments exRetentionDb exCutoff exWeekAgo).map Row.is_active =
      [false, true, false, true] :=
  ⟨cleanup_getD db cutoff week i hi, by decide⟩

/-- Witness for `cleanup_retention_spec` at a concrete input. -/
theorem cleanup_retention_spec_witness :
    0 < exRetentionDb.length ∧
    (((cleanupOldTournaments exRetentionDb exCutoff exWeekAgo).getD 0 row0 =
      (if cleanupCond (exRetentionDb.getD 0 row0) exCutoff exWeekAgo then
        { exRetentionDb.getD 0 row0 with is_active := false }
      else exRetentionDb.getD 0 row0)) ∧
    (cleanupOldTournaments exRetentionDb exCutoff exWeekAgo).map Row.is_active =
      [false, true, false, true]) :=
  ⟨by decide, cleanup_retention_spec exRetentionDb exCutoff exWeekAgo 0 (by decide)⟩

/-- C7: when the first hyperlink whose text contains a registration
keyword also contains a closed keyword, the extracted record has
`registration_available = false` and `registration_status = "closed"`;
in particular a link reading "Inschrijving gesloten" does. -/
theorem registration_closed_override (links : List Link) (l : Link)
    (hf : firstRegLink links = some l)
    (hc : closedKeywords.any (fun k => strContains (lowerStr l.text) k) = true) :
    ((extractRegistrationInfo links).1 = false ∧
      (extractRegistrationInfo links).2.2 = some "closed") ∧
    extractRegistrationInfo
        [{ href := "/inschrijven", text := "Inschrijving gesloten" }] =
      (false, some "https://nttb.toernooi.nl/inschrijven", some "closed") := by
  refine ⟨?_, by decide⟩
  revert hf
  induction links with
  | nil => intro hf; simp [firstRegLink] at hf
  | cons l0 rest ih =>
    intro hf
    rw [firstRegLink_cons] at hf
    by_cases hp : regKeywords.any (fun k => strContains (lowerStr l0.text) k) = true
    · rw [if_pos hp] at hf
      have hl0 : l0 = l := by injection hf
      subst hl0
      have hstep : extractRegistrationInfo (l0 :: rest) =
          (false, regUrl l0, some "closed") := by
        unfold extractRegistrationInfo
        rw [if_pos hp, if_pos hc]
      rw [hstep]
      exact ⟨rfl, rfl⟩
    · rw [if_neg hp] at hf
      have hrec : extractRegistrationInfo (l0 :: rest) =
          extractRegistrationInfo rest := by
        unfold extractRegistrationInfo
        rw [if_neg hp]
        cases rest <;> rfl
      rw [hrec]
      exact ih hf

/-- Witness for `registration_closed_override` at a concrete input. -/
theorem registration_closed_override_witness :
    (firstRegLink [{ href := "/inschrijven", text := "Inschrijving gesloten" }] =
        some { href := "/inschrijven", text := "Inschrijving gesloten" } ∧
      closedKeywords.any (fun k =>
        strContains (lowerStr "Inschrijving gesloten") k) = true) ∧
    (((extractRegistrationInfo
          [{ href := "/inschrijven", text := "Inschrijving gesloten" }]).1 =
        false ∧
      (extractRegistrationInfo
          [{ href := "/inschrijven", text := "Inschrijving gesloten" }]).2.2 =
        some "closed") ∧
    extractRegistrationInfo
        [{ href := "/inschrijven", text := "Inschrijving gesloten" }] =
      (false, some "https://nttb.toernooi.nl/inschrijven", some "closed")) :=
  ⟨⟨by decide, by decide⟩,
   registration_closed_override
     [{ href := "/inschrijven", text := "Inschrijving gesloten" }]
     { href := "/inschrijven", text := "Inschrijving gesloten" }
     (by decide) (by decide)⟩

/-- A consent-widget-shaped element: has a title but contains a checkbox. -/
def exElemCheckbox : PageElement :=
  { title := some { nameSpan := some "Cookie instellingen", linkHref := none },
    hasCheckbox := true, hasAdDiv := false,
    text := "Wij gebruiken cookies", subheads := [], tagTexts := [],
    links := [] }

/-- C8: an element survives the candidate filter only if it has a title
sub-element, no checkbox input, no advertisement container, and no
"cookie" in the first 100 characters of its visible text; an element
containing a checkbox is never among the filtered elements, and every
emitted candidate comes from a filtered element. -/
theorem candidate_filter_only_if (items : List PageElement)
    (e x : PageElement) (he : e ∈ tournamentElements items)
    (hx : x.hasCheckbox = true) :
    (e.title.isSome = true ∧ e.hasCheckbox = false ∧ e.hasAdDiv = false ∧
      strContains (strTake e.text 100) "cookie" = false) ∧
    x ∉ tournamentElements items ∧
    (∀ source tnow c, c ∈ parseTournaments items source tnow →
      ∃ p ∈ (tournamentElements items).enum,
        c = extractTournamentDetails p.2 p.1 source tnow) := by
  have hcond := (List.mem_filter.mp he).2
  simp only [Bool.and_eq_true, Bool.not_eq_true'] at hcond
  obtain ⟨⟨⟨ht, hcb⟩, had⟩, hck⟩ := hcond
  refine ⟨⟨ht, hcb, had, ?_⟩, ?_, ?_⟩
  · by_contra hraw
    rw [Bool.not_eq_false] at hraw
    rw [cookie_lower_of_raw e.text hraw] at hck
    exact absurd hck (by decide)
  · intro hxm
    have hc2 := (List.mem_filter.mp hxm).2
    simp only [Bool.and_eq_true, Bool.not_eq_true'] at hc2
    rw [hx] at hc2
    exact absurd hc2.1.1.2 (by decide)
  · intro source tnow c hc
    unfold parseTournaments at hc
    obtain ⟨p, hp, hfe⟩ := List.mem_filterMap.mp hc
    refine ⟨p, hp, ?_⟩
    by_cases hname :
        (extractTournamentDetails p.2 p.1 source tnow).name.getD "" != ""
    · simp only [hname, if_pos] at hfe
      injection hfe with hv
      exact hv.symm
    · simp only [Bool.not_eq_true] at hname
      simp only [hname] at hfe
      cases hfe

/-- Witness for `candidate_filter_only_if` at a concrete input. -/
theorem candidate_filter_only_if_witness :
    (exElemA ∈ tournamentElements [exElemA, exElemCheckbox] ∧
      exElemCheckbox.hasCheckbox = true) ∧
    ((exElemA.title.isSome = true ∧ exElemA.hasCheckbox = false ∧
        exElemA.hasAdDiv = false ∧
        strContains (strTake exElemA.text 100) "cookie" = false) ∧
      exElemCheckbox ∉ tournamentElements [exElemA, exElemCheckbox] ∧
      (∀ source tnow c,
        c ∈ parseTournaments [exElemA, exElemCheckbox] source tnow →
        ∃ p ∈ (tournamentElements [exElemA, exElemCheckbox]).enum,
          c = extractTournamentDetails p.2 p.1 source tnow)) :=
  ⟨⟨by decide, by decide⟩,
   candidate_filter_only_if [exElemA, exElemCheckbox] exElemA exElemCheckbox
     (by decide) (by decide)⟩

/-- C9: every Query Façade read degrades to an empty result (or all-zero
statistics) when the store read faults, instead of propagating the
exception. -/
theorem query_facade_fault_empty (e : DbError) (now days : Int) (q : String) :
    getAllTournamentsSync (Except.error e) = [] ∧
    getUpcomingTournaments (Except.error e) now days = [] ∧
    searchTournaments (Except.error e) q = [] ∧
    tournamentsWithRegistration (Except.error e) = [] ∧
    getTournamentStats (Except.error e) now =
      { total := 0, upcoming_30_days := 0, with_registration := 0 } :=
  ⟨rfl, rfl, rfl, rfl, rfl⟩

/-- C10: `get_all_tournaments` substitutes "Unknown" / "TBA" / "" /
"unknown" for absent location, date, start date and source, and the
substituted text participates in searches: an active record stored with no
location is returned by `search_tournaments("unknown")`. -/
theorem null_defaults_and_search (r : Row) (db : List Row)
    (hl : r.location = none) (hd : r.date = none) (hs : r.start_date = none)
    (hsrc : r.source = none) (ha : r.is_active = true) (hr : r ∈ db) :
    (rowToTournament r).location = "Unknown" ∧
    (rowToTournament r).date = "TBA" ∧
    (rowToTournament r).start_date = "" ∧
    (rowToTournament r).source = "unknown" ∧
    rowToTournament r ∈ searchTournaments (Except.ok db) "unknown" := by
  have hloc : (rowToTournament r).location = "Unknown" := by
    simp [rowToTournament, hl, pyOr]
  refine ⟨hloc, by simp [rowToTournament, hd, pyOr],
    by simp [rowToTournament, hs, pyOr],
    by simp [rowToTournament, hsrc, pyOr], ?_⟩
  unfold searchTournaments
  refine List.mem_filter.mpr ⟨mem_getAll_of_active db r hr ha, ?_⟩
  simp only [Bool.or_eq_true]
  right
  rw [hloc]
  decide

/-- Witness for `null_defaults_and_search` at a concrete input. -/
theorem null_defaults_and_search_witness :
    (({ row0 with is_active := true } : Row).location = none ∧
      ({ row0 with is_active := true } : Row).date = none ∧
      ({ row0 with is_active := true } : Row).start_date = none ∧
      ({ row0 with is_active := true } : Row).source = none ∧
      ({ row0 with is_active := true } : Row).is_active = true ∧
      ({ row0 with is_active := true } : Row) ∈
        [({ row0 with is_active := true } : Row)]) ∧
    ((rowToTournament { row0 with is_active := true }).location = "Unknown" ∧
      (rowToTournament { row0 with is_active := true }).date = "TBA" ∧
      (rowToTournament { row0 with is_active := true }).start_date = "" ∧
      (rowToTournament { row0 with is_active := true }).source = "unknown" ∧
      rowToTournament { row0 with is_active := true } ∈
        searchTournaments (Except.ok [{ row0 with is_active := true }])
          "unknown") :=
  ⟨⟨rfl, rfl, rfl, rfl, rfl, by decide⟩,
   null_defaults_and_search { row0 with is_active := true }
     [{ row0 with is_active := true }] rfl rfl rfl rfl rfl (by decide)⟩

/-! ### Reconciliation lemmas (towards idempotence and the uniqueness
invariant) -/

theorem rowMatches_setFields (t : Candidate) (now : String) (r : Row)
    (h : String) : rowMatches (setFields t now r) h = rowMatches r h := rfl

theorem rowMatches_updRow (t : Candidate) (now : String) (r : Row)
    (h : String) : rowMatches (updRow t now r) h = rowMatches r h := by
  unfold updRow
  split
  · exact rowMatches_setFields t now r h
  · rfl

theorem setFields_setFields (t t2 : Candidate) (now now2 : String) (r : Row) :
    setFields t now (setFields t2 now2 r) = setFields t now r := rfl

theorem rowMatches_unique (r : Row) (h1 h2 : String)
    (m1 : rowMatches r h1 = true) (m2 : rowMatches r h2 = true) : h1 = h2 := by
  unfold rowMatches at m1 m2
  simp only [Bool.and_eq_true, beq_iff_eq] at m1 m2
  exact Option.some.inj (m1.2.symm.trans m2.2)

theorem updRow_updRow_same (t t2 : Candidate) (now now2 : String) (r : Row)
    (hh : t2.hash = t.hash) :
    updRow t now (updRow t2 now2 r) = updRow t now r := by
  by_cases hm : rowMatches r t.hash = true
  · have hm2 : rowMatches r t2.hash = true := by rw [hh]; exact hm
    simp [updRow, hm, hm2, rowMatches_setFields, setFields_setFields]
  · rw [Bool.not_eq_true] at hm
    have hm2 : rowMatches r t2.hash = false := by rw [hh]; exact hm
    simp [updRow, hm, hm2]

theorem updRow_comm (t1 t2 : Candidate) (now1 now2 : String) (r : Row)
    (hne : t1.hash ≠ t2.hash) :
    updRow t1 now1 (updRow t2 now2 r) = updRow t2 now2 (updRow t1 now1 r) := by
  by_cases h1 : rowMatches r t1.hash = true
  · have h2 : rowMatches r t2.hash = false := by
      by_contra hc
      rw [Bool.not_eq_false] at hc
      exact hne (rowMatches_unique r t1.hash t2.hash h1 hc)
    simp [updRow, h1, h2, rowMatches_setFields]
  · rw [Bool.not_eq_true] at h1
    by_cases h2 : rowMatches r t2.hash = true
    · simp [updRow, h1, h2, rowMatches_setFields]
    · rw [Bool.not_eq_true] at h2
      simp [updRow, h1, h2]

theorem map_eq_self_of_mem (l : List Row) (f : Row → Row)
    (h : ∀ r ∈ l, f r = r) : l.map f = l := by
  induction l with
  | nil => rfl
  | cons r rest ih =>
    simp only [List.map_cons]
    rw [h r (by simp), ih (fun r2 hr2 => h r2 (by simp [hr2]))]

theorem existsActive_map_updRow (t : Candidate) (now : String)
    (db : List Row) (h : String) :
    existsActive (db.map (updRow t now)) h = existsActive db h := by
  induction db with
  | nil => rfl
  | cons r rest ih =>
    show (rowMatches (updRow t now r) h ||
        (rest.map (updRow t now)).any (fun r => rowMatches r h)) =
      (rowMatches r h || rest.any (fun r => rowMatches r h))
    rw [rowMatches_updRow]
    unfold existsActive at ih
    rw [ih]

theorem rowMatches_newRow (t : Candidate) (now : String) (h : String) :
    rowMatches (newRow t now) h = (t.hash == h) := by
  unfold rowMatches newRow
  simp

theorem existsActive_append_new (t : Candidate) (now : String)
    (db : List Row) (h : String) :
    existsActive (db ++ [newRow t now]) h =
      (existsActive db h || (t.hash == h)) := by
  unfold existsActive
  rw [List.any_append]
  simp [rowMatches_newRow]

theorem existsActive_saveStep_mono (t : Candidate) (now : String)
    (db : List Row) (h : String) (ha : existsActive db h = true) :
    existsActive (saveStep now db t) h = true := by
  unfold saveStep
  split
  · rw [existsActive_map_updRow]; exact ha
  · rw [existsActive_append_new, ha, Bool.true_or]

theorem existsActive_saveStep_self (t : Candidate) (now : String)
    (db : List Row) : existsActive (saveStep now db t) t.hash = true := by
  unfold saveStep
  split
  · rename_i hex
    rw [existsActive_map_updRow]
    exact hex
  · rw [existsActive_append_new]
    simp

theorem existsActive_save_mono (ts : List Candidate) :
    ∀ (db : List Row) (now : String) (h : String),
      existsActive db h = true →
      existsActive (saveTournamentsToDb db ts now) h = true := by
  induction ts with
  | nil => intro db now h ha; exact ha
  | cons c rest ih =>
    intro db now h ha
    exact ih (saveStep now db c) now h (existsActive_saveStep_mono c now db h ha)

theorem existsActive_save_of_mem (ts : List Candidate) :
    ∀ (db : List Row) (now : String) (t : Candidate), t ∈ ts →
      existsActive (saveTournamentsToDb db ts now) t.hash = true := by
  induction ts with
  | nil => intro db now t ht; simp at ht
  | cons c rest ih =>
    intro db now t ht
    rcases List.mem_cons.mp ht with h | h
    · subst h
      exact existsActive_save_mono rest (saveStep now db t) now t.hash
        (existsActive_saveStep_self t now db)
    · exact ih (saveStep now db c) now t h

/-- `db` is settled for candidate `t` at time `now`: applying `t`'s UPDATE
changes nothing. -/
def Settled (t : Candidate) (now : String) (db : List Row) : Prop :=
  ∀ r ∈ db, updRow t now r = r

theorem settled_saveStep_self (t : Candidate) (now : String) (db : List Row) :
    Settled t now (saveStep now db t) := by
  unfold saveStep
  split
  · intro r hr
    obtain ⟨r0, _, hr0⟩ := List.mem_map.mp hr
    subst hr0
    exact updRow_updRow_same t t now now r0 rfl
  · rename_i hex
    intro r hr
    rcases List.mem_append.mp hr with h | h
    · have hall : ∀ r2 ∈ db, rowMatches r2 t.hash = false := by
        intro r2 hr2
        by_contra hc
        rw [Bool.not_eq_false] at hc
        have : existsActive db t.hash = true := by
          unfold existsActive
          exact List.any_eq_true.mpr ⟨r2, hr2, hc⟩
        exact hex this
      unfold updRow
      rw [hall r h]
      simp
    · have : r = newRow t now := by simpa using h
      subst this
      unfold updRow
      rw [rowMatches_newRow]
      simp only [beq_self_eq_true, if_pos]
      rfl

theorem settled_saveStep_other (t t2 : Candidate) (now now2 : String)
    (db : List Row) (hne : t2.hash ≠ t.hash) (hs : Settled t now db) :
    Settled t now (saveStep now2 db t2) := by
  unfold saveStep
  split
  · intro r hr
    obtain ⟨r0, hr0m, hr0⟩ := List.mem_map.mp hr
    subst hr0
    rw [updRow_comm t t2 now now2 r0 (fun hc => hne hc.symm), hs r0 hr0m]
  · intro r hr
    rcases List.mem_append.mp hr with h | h
    · exact hs r h
    · have : r = newRow t2 now2 := by simpa using h
      subst this
      unfold updRow
      rw [rowMatches_newRow]
      have : (t2.hash == t.hash) = false := by
        simp [hne]
      rw [this]
      simp

theorem settled_save (ts : List Candidate) :
    ∀ (db : List Row) (t : Candidate) (now now2 : String),
      (∀ c ∈ ts, c.hash ≠ t.hash) → Settled t now db →
      Settled t now (saveTournamentsToDb db ts now2) := by
  induction ts with
  | nil => intro db t now now2 _ hs; exact hs
  | cons c rest ih =>
    intro db t now now2 hall hs
    exact ih (saveStep now2 db c) t now now2
      (fun c2 hc2 => hall c2 (by simp [hc2]))
      (settled_saveStep_other t c now now2 db (hall c (by simp)) hs)

theorem map_updRow_of_settled (t : Candidate) (now : String) (db : List Row)
    (hs : Settled t now db) : db.map (updRow t now) = db :=
  map_eq_self_of_mem db (updRow t now) hs

/-- Re-applying a candidate's UPDATE before replaying a list that still
contains a candidate with the same hash is absorbed by the replay. -/
theorem saveStep_of_active (t : Candidate) (now : String) (db : List Row)
    (h : existsActive db t.hash = true) :
    saveStep now db t = db.map (updRow t now) := by
  unfold saveStep
  rw [if_pos h]

theorem save_absorb (t : Candidate) (now : String) :
    ∀ (l : List Candidate) (db : List Row), t.hash ∈ l.map Candidate.hash →
      List.foldl (saveStep now) (db.map (updRow t now)) l =
        List.foldl (saveStep now) db l := by
  intro l
  induction l with
  | nil => intro db h; simp at h
  | cons c rest ih =>
    intro db hmem
    simp only [List.foldl_cons]
    by_cases hch : c.hash = t.hash
    · have hstep : saveStep now (db.map (updRow t now)) c = saveStep now db c := by
        unfold saveStep
        rw [existsActive_map_updRow]
        by_cases hex : existsActive db c.hash = true
        · rw [if_pos hex, if_pos hex, List.map_map]
          apply List.map_congr_left
          intro r _
          show updRow c now (updRow t now r) = updRow c now r
          exact updRow_updRow_same c t now now r hch.symm
        · rw [if_neg hex, if_neg hex]
          have hallf : ∀ r ∈ db, updRow t now r = r := by
            intro r hr
            have hm : rowMatches r t.hash = false := by
              by_contra hc2
              rw [Bool.not_eq_false] at hc2
              apply hex
              apply List.any_eq_true.mpr
              refine ⟨r, hr, ?_⟩
              rw [hch]
              exact hc2
            unfold updRow
            rw [hm]
            simp
          rw [map_eq_self_of_mem db (updRow t now) hallf]
      rw [hstep]
    · have hmem2 : t.hash ∈ rest.map Candidate.hash := by
        simp only [List.map_cons, List.mem_cons] at hmem
        rcases hmem with h | h
        · exact absurd h.symm hch
        · exact h
      have hstep : saveStep now (db.map (updRow t now)) c =
          (saveStep now db c).map (updRow t now) := by
        unfold saveStep
        rw [existsActive_map_updRow]
        by_cases hex : existsActive db c.hash = true
        · rw [if_pos hex, if_pos hex, List.map_map, List.map_map]
          apply List.map_congr_left
          intro r _
          show updRow c now (updRow t now r) = updRow t now (updRow c now r)
          exact updRow_comm c t now now r hch
        · rw [if_neg hex, if_neg hex, List.map_append]
          have hone : updRow t now (newRow c now) = newRow c now := by
            have hm : rowMatches (newRow c now) t.hash = false := by
              rw [rowMatches_newRow]
              simp [hch]
            unfold updRow
            rw [hm]
            simp
          simp only [List.map_cons, List.map_nil, hone]
      rw [hstep]
      exact ih (saveStep now db c) hmem2

/-- Replaying the identical candidate list at the same timestamp is the
identity: the core of reconciliation idempotence. -/
theorem save_idempotent_aux :
    ∀ (ts : List Candidate) (db : List Row) (now : String),
      saveTournamentsToDb (saveTournamentsToDb db ts now) ts now =
        saveTournamentsToDb db ts now := by
  intro ts
  induction ts with
  | nil => intro db now; rfl
  | cons c l ih =>
    intro db now
    unfold saveTournamentsToDb
    simp only [List.foldl_cons]
    have hD : List.foldl (saveStep now) (saveStep now db c) l =
        saveTournamentsToDb (saveStep now db c) l now := rfl
    rw [hD]
    have hact : existsActive (saveTournamentsToDb (saveStep now db c) l now)
        c.hash = true :=
      existsActive_save_mono l (saveStep now db c) now c.hash
        (existsActive_saveStep_self c now db)
    rw [saveStep_of_active c now (saveTournamentsToDb (saveStep now db c) l now)
      hact]
    by_cases hmem : c.hash ∈ l.map Candidate.hash
    · rw [save_absorb c now l (saveTournamentsToDb (saveStep now db c) l now) hmem]
      exact ih (saveStep now db c) now
    · have hnomatch : ∀ c2 ∈ l, c2.hash ≠ c.hash := by
        intro c2 hc2 hcon
        exact hmem (List.mem_map.mpr ⟨c2, hc2, hcon⟩)
      have hset : Settled c now (saveTournamentsToDb (saveStep now db c) l now) :=
        settled_save l (saveStep now db c) c now now hnomatch
          (settled_saveStep_self c now db)
      rw [map_updRow_of_settled c now _ hset]
      exact ih (saveStep now db c) now

/-- Erase the refresh timestamp, leaving every business field. -/
def stripTime (r : Row) : Row := { r with scraped_at := "" }

theorem rowMatches_stripTime (r : Row) (h : String) :
    rowMatches (stripTime r) h = rowMatches r h := rfl

theorem existsActive_map_stripTime (db : List Row) (h : String) :
    existsActive (db.map stripTime) h = existsActive db h := by
  induction db with
  | nil => rfl
  | cons r rest ih =>
    show (rowMatches (stripTime r) h ||
        (rest.map stripTime).any (fun r => rowMatches r h)) =
      (rowMatches r h || rest.any (fun r => rowMatches r h))
    rw [rowMatches_stripTime]
    unfold existsActive at ih
    rw [ih]

theorem stripTime_updRow (t : Candidate) (now : String) (r : Row) :
    stripTime (updRow t now r) = updRow t "" (stripTime r) := by
  unfold updRow
  rw [rowMatches_stripTime]
  by_cases hm : rowMatches r t.hash = true
  · rw [if_pos hm, if_pos hm]
    rfl
  · rw [if_neg hm, if_neg hm]

theorem stripTime_newRow (t : Candidate) (now : String) :
    stripTime (newRow t now) = newRow t "" := rfl

theorem map_stripTime_saveStep (t : Candidate) (now : String) (db : List Row) :
    (saveStep now db t).map stripTime = saveStep "" (db.map stripTime) t := by
  unfold saveStep
  rw [existsActive_map_stripTime]
  by_cases hex : existsActive db t.hash = true
  · rw [if_pos hex, if_pos hex, List.map_map, List.map_map]
    apply List.map_congr_left
    intro r _
    exact stripTime_updRow t now r
  · rw [if_neg hex, if_neg hex, List.map_append]
    simp only [List.map_cons, List.map_nil, stripTime_newRow]

theorem map_stripTime_save (ts : List Candidate) :
    ∀ (db : List Row) (now : String),
      (saveTournamentsToDb db ts now).map stripTime =
        saveTournamentsToDb (db.map stripTime) ts "" := by
  induction ts with
  | nil => intro db now; rfl
  | cons c rest ih =>
    intro db now
    show (saveTournamentsToDb (saveStep now db c) rest now).map stripTime =
      saveTournamentsToDb (saveStep "" (db.map stripTime) c) rest ""
    rw [ih (saveStep now db c) now, map_stripTime_saveStep]

theorem stripTime_is_active (r : Row) : (stripTime r).is_active = r.is_active :=
  rfl

theorem activeCount_map_stripTime (db : List Row) :
    ((db.map stripTime).filter (fun r => r.is_active)).length =
      (db.filter (fun r => r.is_active)).length := by
  induction db with
  | nil => rfl
  | cons r rest ih =>
    simp only [List.map_cons, List.filter_cons, stripTime_is_active]
    by_cases ha : r.is_active = true
    · rw [if_pos ha, if_pos ha]
      simp [ih]
    · rw [if_neg ha, if_neg ha]
      exact ih

/-- C3: reconciling the identical deduplicated candidate set twice leaves
the store exactly as after one run: at the same timestamp the stores are
equal outright; across different run timestamps every field except the
refreshed `scraped_at` is unchanged and the active row count is the same
(no duplicate rows, no field drift). -/
theorem save_twice_idempotent (db : List Row) (ts : List Candidate)
    (t1 t2 : String) :
    saveTournamentsToDb (saveTournamentsToDb db ts t1) ts t1 =
      saveTournamentsToDb db ts t1 ∧
    (saveTournamentsToDb (saveTournamentsToDb db ts t1) ts t2).map stripTime =
      (saveTournamentsToDb db ts t1).map stripTime ∧
    ((saveTournamentsToDb (saveTournamentsToDb db ts t1) ts t2).filter
        (fun r => r.is_active)).length =
      ((saveTournamentsToDb db ts t1).filter (fun r => r.is_active)).length := by
  have hstrip :
      (saveTournamentsToDb (saveTournamentsToDb db ts t1) ts t2).map stripTime =
        (saveTournamentsToDb db ts t1).map stripTime := by
    rw [map_stripTime_save ts (saveTournamentsToDb db ts t1) t2,
      map_stripTime_save ts db t1, save_idempotent_aux ts (db.map stripTime) ""]
  refine ⟨save_idempotent_aux ts db t1, hstrip, ?_⟩
  rw [← activeCount_map_stripTime (saveTournamentsToDb (saveTournamentsToDb db ts t1) ts t2),
    ← activeCount_map_stripTime (saveTournamentsToDb db ts t1), hstrip]

/-- At most one active row bears any given fingerprint. -/
def atMostOneActive (db : List Row) : Prop :=
  ∀ h : String, db.countP (fun r => rowMatches r h) ≤ 1

theorem countP_map_updRow (t : Candidate) (now : String) (db : List Row)
    (h : String) :
    (db.map (updRow t now)).countP (fun r => rowMatches r h) =
      db.countP (fun r => rowMatches r h) := by
  induction db with
  | nil => rfl
  | cons r rest ih =>
    simp only [List.map_cons, List.countP_cons, rowMatches_updRow]
    rw [ih]

theorem countP_eq_zero_of_not_existsActive (db : List Row) (h : String)
    (hex : existsActive db h = false) :
    db.countP (fun r => rowMatches r h) = 0 := by
  induction db with
  | nil => rfl
  | cons r rest ih =>
    unfold existsActive at hex ih
    simp only [List.any_cons, Bool.or_eq_false_iff] at hex
    rw [List.countP_cons, ih hex.2, hex.1]
    simp

theorem atMostOne_saveStep (t : Candidate) (now : String) (db : List Row)
    (h1 : atMostOneActive db) : atMostOneActive (saveStep now db t) := by
  intro h
  unfold saveStep
  split
  · rw [countP_map_updRow]
    exact h1 h
  · rename_i hex
    rw [Bool.not_eq_true] at hex
    rw [List.countP_append]
    by_cases hh : t.hash = h
    · subst hh
      rw [countP_eq_zero_of_not_existsActive db t.hash hex]
      simp [List.countP_cons, rowMatches_newRow]
    · have : (List.countP (fun r => rowMatches r h) [newRow t now]) = 0 := by
        simp [List.countP_cons, rowMatches_newRow, hh]
      rw [this]
      simpa using h1 h

/-- C4: from any store in which each fingerprint has at most one active
row, reconciliation preserves that invariant — the UPDATE branch changes no
row identities and the INSERT branch fires only when no active row with the
candidate's hash exists. -/
theorem save_preserves_unique_active (db : List Row) (ts : List Candidate)
    (now : String) (h1 : atMostOneActive db) :
    atMostOneActive (saveTournamentsToDb db ts now) := by
  induction ts generalizing db with
  | nil => exact h1
  | cons c rest ih =>
    exact ih (saveStep now db c) (atMostOne_saveStep c now db h1)

/-- A concrete extracted candidate, for witnesses. -/
def exCand : Candidate :=
  { id := "tournament_upcoming_0_0", tournament_id := none,
    name := some "Foo Cup", location := some "Delft",
    date := some "1 januari 2026", start_date := some "2026-01-01",
    end_date := none, categories := none, registration_available := false,
    registration_url := none, registration_deadline := none,
    registration_status := none, tournament_url := none,
    source := "upcoming", extraction_method := "nttb_scraper_v2",
    hash := tournamentHash (some "Foo Cup") (some "2026-01-01") (some "Delft") }

/-- Witness for `save_preserves_unique_active` at a concrete input. -/
theorem save_preserves_unique_active_witness :
    atMostOneActive ([] : List Row) ∧
    atMostOneActive (saveTournamentsToDb [] [exCand] "2026-10-12 11:00:00") :=
  ⟨fun h => by simp,
   save_preserves_unique_active [] [exCand] "2026-10-12 11:00:00"
     (fun h => by simp)⟩

/-! ### Deduplicator claims -/

/-- Candidate observed on the "upcoming" tab. -/
def exCandUpper : Candidate :=
  { id := "t1", tournament_id := none, name := some "Cup",
    location := some "Delft", date := none,
    start_date := some "2026-01-01T10:00", end_date := none,
    categories := none, registration_available := false,
    registration_url := none, registration_deadline := none,
    registration_status := none, tournament_url := none,
    source := "upcoming", extraction_method := "nttb_scraper_v2",
    hash := "h1" }

/-- Same candidate but with the `T` of its start date in lower case. -/
def exCandLowerT : Candidate :=
  { exCandUpper with id := "t2", start_date := some "2026-01-01t10:00" }

/-- Same candidate as observed on the "recent" tab. -/
def exCandRecent : Candidate :=
  { exCandUpper with id := "t3", source := "recent" }

/-- The key as the claim words it: (name, startDate, location) compared
case-insensitively after trimming on all three components.  The code's
`dedupKey` lowercases only name and location; this definition follows the
claim's words, for comparison. -/
def claimKey (t : Candidate) : String × String × String :=
  (lowerStr (stripStr (t.name.getD "")),
   lowerStr (stripStr (t.start_date.getD "")),
   lowerStr (stripStr (t.location.getD "")))

/-- C6, counterexample: two candidates equal under the claim's
case-insensitive key, but whose start dates differ only in letter case,
both survive deduplication — `start_date` is compared case-sensitively
(only trimmed), so they do not collapse to one record. -/
theorem dedup_startdate_case_cex :
    claimKey exCandUpper = claimKey exCandLowerT ∧
    removeDuplicateTournaments [exCandUpper, exCandLowerT] =
      [exCandUpper, exCandLowerT] :=
  ⟨by decide, by decide⟩

theorem removeDuplicatesGo_filter (k : String × String × String) :
    ∀ (ts : List Candidate) (seen : List (String × String × String)),
      (∀ t ∈ ts, t.name.getD "" ≠ "") →
      (removeDuplicatesGo ts seen).filter (fun t => dedupKey t == k) =
        (if k ∈ seen then [] else
          (ts.filter (fun t => dedupKey t == k)).take 1) := by
  intro ts
  induction ts with
  | nil =>
    intro seen hn
    by_cases hk : k ∈ seen <;> simp [removeDuplicatesGo, hk]
  | cons t rest ih =>
    intro seen hn
    have hne : t.name.getD "" ≠ "" := hn t (by simp)
    have hnrest : ∀ c ∈ rest, c.name.getD "" ≠ "" :=
      fun c hc => hn c (by simp [hc])
    unfold removeDuplicatesGo
    rw [if_neg (by simpa using hne)]
    by_cases hsk : dedupKey t ∈ seen
    · rw [if_pos (by simpa [List.contains, List.elem_iff] using hsk)]
      rw [ih seen hnrest]
      by_cases hk : dedupKey t = k
      · rw [if_pos (hk ▸ hsk), if_pos (hk ▸ hsk)]
      · rw [List.filter_cons_of_neg (by simpa using hk)]
    · rw [if_neg (by simpa [List.contains, List.elem_iff] using hsk)]
      by_cases hk : dedupKey t = k
      · subst hk
        rw [List.filter_cons_of_pos (by simp)]
        rw [ih (dedupKey t :: seen) hnrest]
        rw [if_pos (by simp), if_neg hsk]
        rw [List.filter_cons_of_pos (by simp)]
        simp
      · have hbf : (dedupKey t == k) = false := by simpa using hk
        rw [List.filter_cons_of_neg (by simp [hbf])]
        rw [ih (dedupKey t :: seen) hnrest]
        by_cases hks : k ∈ seen
        · rw [if_pos (by simp [hks]), if_pos hks]
        · rw [if_neg ?hnotin, if_neg hks]
          case hnotin =>
            intro hmem
            rcases List.mem_cons.mp hmem with h | h
            · exact hk h.symm
            · exact hks h
          rw [List.filter_cons_of_neg (by simp [hbf])]

/-- C6, amended: for candidates with non-empty names, the Deduplicator
keeps exactly the first-seen candidate per distinct key
`(lower(trim name), trim startDate, lower(trim location))` — name and
location compared case-insensitively, startDate trimmed but
case-sensitive.  Two candidates identical in that key but observed on
different tabs collapse to one record. -/
theorem dedup_one_per_key (ts : List Candidate)
    (hn : ∀ t ∈ ts, t.name.getD "" ≠ "") :
    (∀ k : String × String × String,
      (removeDuplicateTournaments ts).filter (fun t => dedupKey t == k) =
        (ts.filter (fun t => dedupKey t == k)).take 1) ∧
    removeDuplicateTournaments [exCandUpper, exCandRecent] = [exCandUpper] := by
  refine ⟨?_, by decide⟩
  intro k
  have h := removeDuplicatesGo_filter k ts [] hn
  simpa [removeDuplicateTournaments] using h

/-- Witness for `dedup_one_per_key` at a concrete input. -/
theorem dedup_one_per_key_witness :
    (∀ t ∈ [exCandUpper, exCandRecent], t.name.getD "" ≠ "") ∧
    ((∀ k : String × String × String,
      (removeDuplicateTournaments [exCandUpper, exCandRecent]).filter
          (fun t => dedupKey t == k) =
        (([exCandUpper, exCandRecent]).filter
          (fun t => dedupKey t == k)).take 1) ∧
    removeDuplicateTournaments [exCandUpper, exCandRecent] = [exCandUpper]) :=
  ⟨by decide, dedup_one_per_key [exCandUpper, exCandRecent] (by decide)⟩
